import Mathlib

/-!
Shallow embedding of the tabulate library (markkurossi/tabulate) for
checking its natural-language specification.  The definitions below are
translated from the Go sources: `data.go` (the Data cell-content model),
`format.go` (text formats), and `tabulate.go` (styles, borders, the
layout/rendering engine `Print` / `printColumn`, CSV escaping, and the
table-as-Data memoization).  Go `int` values that can go negative are
modelled as `Int` with Go's truncated division written explicitly as
`Int.tdiv`; Go slice accesses that could panic (negative index, nil
interface dereference) are modelled with `Option`, `none` standing for a
runtime panic.
-/

namespace Tab

/-- Go `len([]rune s)`: the number of Unicode code points of a Go string,
which is what the Go sources use to measure cell widths. -/
def runeLen (s : String) : Nat := s.length

mutual

/-- The `Data` interface of data.go, as the closed set of its
implementations in the source: `Value` (a single stringified scalar,
field `string`), `Lines` (fields `MaxWidth`, `Lines`) and `Array`
(fields `maxWidth`, `height`, `content`).  A nested table used as cell
content is extensionally a `Lines` of its rendered text (see
`Tabulate.dataFn` below), so it needs no separate constructor here. -/
inductive Data where
  | value (s : String)
  | lines (maxWidth : Nat) (ls : List String)
  | array (maxWidth : Nat) (height : Nat) (content : DataList)

/-- A Go slice `[]Data`, as a plain list. -/
inductive DataList where
  | nil
  | cons (d : Data) (rest : DataList)

end

/-- The loop of `NewLinesData`: computes `MaxWidth` as the running maximum of the
rune lengths of the lines (Go loop `if l > max { max = l }`). -/
def listMaxRuneLen (ls : List String) : Nat :=
  ls.foldl (fun m l => max m (runeLen l)) 0

/-- Source `NewLinesData(lines)`: a `Lines` with the computed maximum width. -/
def NewLinesData (ls : List String) : Data :=
  .lines (listMaxRuneLen ls) ls

/-- Go `strings.TrimRight(str, "\n")`: drop every trailing newline. -/
def trimRightNewlines (s : String) : String :=
  String.mk ((s.data.reverse.dropWhile (fun c => c = '\n')).reverse)

/-- Go `strings.Split` on a one-character separator, over the rune list
(splitting the empty string yields one empty field, as in Go). -/
def splitChars (sep : Char) : List Char → List (List Char)
  | [] => [[]]
  | c :: cs =>
    match splitChars sep cs with
    | [] => [[]]
    | g :: gs => if c = sep then [] :: g :: gs else (c :: g) :: gs

/-- Go `strings.Split(s, "\n")`. -/
def splitNewlines (s : String) : List String :=
  (splitChars '\n' s.data).map String.mk

/-- Source `NewLines(str)`: trim trailing newlines, split on '\n'. -/
def NewLines (s : String) : Data :=
  NewLinesData (splitNewlines (trimRightNewlines s))

/-- Source `NewText(str)`: one line, width = rune length. -/
def NewText (s : String) : Data :=
  .lines (runeLen s) [s]

/-- Source `NewValue(v)`: the `Value` Data; the `string` field is
`fmt.Sprintf("%v", v)`, taken here as the already-stringified value. -/
def NewValue (s : String) : Data :=
  .value s

/-- Method `Width()` of each Data variant: `Value` counts runes of its string,
`Lines` and `Array` return their stored width fields. -/
def Data.Width : Data → Nat
  | .value s => runeLen s
  | .lines mw _ => mw
  | .array mw _ _ => mw

/-- Method `Height()` of each Data variant. -/
def Data.Height : Data → Nat
  | .value _ => 1
  | .lines _ ls => ls.length
  | .array _ h _ => h

/-- Method `Lines.Content(row)`: the out-of-range guard checks only
`row >= len(lines)`; a negative `row` reaches `lines[row]` and panics,
modelled as `none`. -/
def linesContent (ls : List String) (row : Int) : Option String :=
  if (ls.length : Int) ≤ row then some ""
  else if row < 0 then none
  else ls.get? row.toNat

mutual

/-- Method `Content(row)` of each Data variant.  `Value.Content` returns ""
only for `row > 0` (a negative row still returns the value);
`Lines.Content` is `linesContent`; `Array.Content` walks its children
subtracting each child's height. -/
def Data.ContentOpt : Data → Int → Option String
  | .value s, row => if 0 < row then some "" else some s
  | .lines _ ls, row => linesContent ls row
  | .array _ _ cs, row => DataList.contentOpt cs row

/-- The loop body of `Array.Content`: return the first child whose
height exceeds the remaining row index, else recurse with the index
reduced by the child's height; an exhausted list returns "". -/
def DataList.contentOpt : DataList → Int → Option String
  | .nil, _ => some ""
  | .cons c cs, row =>
    if row < (Data.Height c : Int) then Data.ContentOpt c row
    else DataList.contentOpt cs (row - (Data.Height c : Int))

end

mutual

/-- Method `String()` of each Data variant (`Lines` joins with newlines,
`Array` brackets a comma-joined list). -/
def Data.str : Data → String
  | .value s => s
  | .lines _ ls => String.intercalate "\n" ls
  | .array _ _ cs => "[" ++ DataList.strJoin cs ++ "]"

/-- Comma-joined `String()`s of an array's children. -/
def DataList.strJoin : DataList → String
  | .nil => ""
  | .cons c .nil => Data.str c
  | .cons c cs => Data.str c ++ "," ++ DataList.strJoin cs

end

/-- The nine alignment constants plus `None` of tabulate.go. -/
inductive Align where
  | TL | TC | TR | ML | MC | MR | BL | BC | BR | None
deriving DecidableEq

/-- Text formats of format.go. -/
inductive Format where
  | FmtNone | FmtBold | FmtItalic
deriving DecidableEq

/-- Method `Format.VT100()`. -/
def Format.VT100 : Format → String
  | .FmtBold => "\x1b[1m"
  | .FmtItalic => "\x1b[3m"
  | .FmtNone => "\x1b[m"

/-- The table styles of tabulate.go. -/
inductive Style where
  | Plain | ASCII | Unicode | UnicodeLight | UnicodeBold
  | Colon | Simple | Github | CSV | JSON
deriving DecidableEq

/-- The `Border` struct: border drawing elements. -/
structure Border where
  HT : String := ""
  HM : String := ""
  HB : String := ""
  VL : String := ""
  VM : String := ""
  VR : String := ""
  TL : String := ""
  TM : String := ""
  TR : String := ""
  ML : String := ""
  MM : String := ""
  MR : String := ""
  BL : String := ""
  BM : String := ""
  BR : String := ""

/-- The `Borders` struct: header and body border sets. -/
structure Borders where
  Header : Border := {}
  Body : Border := {}

/-- Source `asciiBorder`. -/
def asciiBorder : Border :=
  { HT := "-", HM := "-", HB := "-", VL := "|", VM := "|", VR := "|",
    TL := "+", TM := "+", TR := "+", ML := "+", MM := "+", MR := "+",
    BL := "+", BM := "+", BR := "+" }

/-- Source `unicodeLight`. -/
def unicodeLight : Border :=
  { HT := "─", HM := "─", HB := "─", VL := "│", VM := "│", VR := "│",
    TL := "┌", TM := "┬", TR := "┐", ML := "├", MM := "┼", MR := "┤",
    BL := "└", BM := "┴", BR := "┘" }

/-- Source `unicodeBold`. -/
def unicodeBold : Border :=
  { HT := "━", HM := "━", HB := "━", VL := "┃", VM := "┃", VR := "┃",
    TL := "┏", TM := "┳", TR := "┓", ML := "┣", MM := "╋", MR := "┫",
    BL := "┗", BM := "┻", BR := "┛" }

/-- The `borders` style registry map. -/
def borders : Style → Borders
  | .Plain => {}
  | .ASCII => { Header := asciiBorder, Body := asciiBorder }
  | .Unicode =>
    { Header :=
        { HT := "━", HM := "━", HB := "━", VL := "┃", VM := "┃", VR := "┃",
          TL := "┏", TM := "┳", TR := "┓", ML := "┡", MM := "╇", MR := "┩",
          BL := "┗", BM := "┻", BR := "┛" },
      Body := unicodeLight }
  | .UnicodeLight => { Header := unicodeLight, Body := unicodeLight }
  | .UnicodeBold => { Header := unicodeBold, Body := unicodeBold }
  | .Colon => { Header := { VM := " : " }, Body := { VM := " : " } }
  | .Simple =>
    { Header := { HM := "-", VM := "  ", MM := "  " },
      Body := { VM := "  ", MM := "  " } }
  | .Github =>
    { Header :=
        { HM := "-", VL := "|", VM := "|", VR := "|",
          ML := "|", MM := "|", MR := "|" },
      Body := { VL := "|", VM := "|", VR := "|" } }
  | .CSV =>
    { Header := { VM := ",", VR := "\r" },
      Body := { VM := ",", VR := "\r" } }
  | .JSON => {}

/-- The `Column` struct: alignment, cell data (a nil-able Go interface,
hence `Option`), text format.  The zero value `Column{}` (used by the
engine for missing cells) has align `TL`, nil data, format `FmtNone`. -/
structure Column where
  Align : Align := .TL
  Data : Option Data := none
  Format : Format := .FmtNone

/-- The `Row` struct (the back-pointer `Tab` is only used while
building rows and is dropped here). -/
structure Row where
  Columns : List Column := []

/-- The `Tabulate` struct.  `Output` (the custom whole-table encoder
installed for the JSON style) is represented by the flag `hasOutput`;
the JSON encoder itself is modelled separately below. -/
structure Tabulate where
  Padding : Int := 2
  Borders : Borders := {}
  Escape : Option (String → String) := none
  hasOutput : Bool := false
  Headers : List Column := []
  Rows : List Row := []
  asData : Option Data := none

/-- Source `escapeCSV`: return the value unchanged when it contains neither a
double quote nor a newline; otherwise wrap it in double quotes doubling
every embedded double quote. -/
def containsRune (val : String) (r : Char) : Bool :=
  val.data.any (fun c => c = r)

def escapeCSV (val : String) : String :=
  if ¬ containsRune val '"' ∧ ¬ containsRune val '\n' then val
  else
    "\"" ++ String.mk (val.data.flatMap
      (fun r => if r = '"' then ['"', r] else [r])) ++ "\""

/-- Constructor `New(style)`: padding 2 by default, 0 for Colon/Simple/CSV/JSON;
CSV installs `escapeCSV`, JSON installs the custom `outputJSON`. -/
def New (style : Style) : Tabulate :=
  let base : Tabulate := { Padding := 2, Borders := borders style }
  match style with
  | .Colon => { base with Padding := 0 }
  | .Simple => { base with Padding := 0 }
  | .CSV => { base with Padding := 0, Escape := some escapeCSV }
  | .JSON => { base with Padding := 0, hasOutput := true }
  | _ => base

/-- Method `Column.Width()`: 0 for nil data. -/
def Column.Width (c : Column) : Nat :=
  match c.Data with
  | none => 0
  | some d => d.Width

/-- Method `Column.Height()`: 0 for nil data. -/
def Column.Height (c : Column) : Nat :=
  match c.Data with
  | none => 0
  | some d => d.Height

/-- Method `Column.Content(row)`: "" for nil data. -/
def Column.Content (c : Column) (row : Int) : Option String :=
  match c.Data with
  | none => some ""
  | some d => d.ContentOpt row

/-- Builder `Tabulate.Header(label)` / `HeaderData`: append a column holding
the label's `NewLines` data. -/
def Tabulate.Header (t : Tabulate) (label : String) : Tabulate :=
  { t with Headers := t.Headers ++ [{ Data := some (NewLines label) }] }

/-- A Go `for` loop collecting one result per element, aborting on the
first panic (`none`). -/
def mapMOpt {α β : Type} (f : α → Option β) : List α → Option (List β)
  | [] => some []
  | a :: as => do
    let b ← f a
    let bs ← mapMOpt f as
    pure (b :: bs)

/-- A Go `for` loop threading an accumulator, aborting on the first
panic (`none`). -/
def foldlMOpt {α β : Type} (f : β → α → Option β) (b : β) : List α → Option β
  | [] => some b
  | a :: as => do
    let b2 ← f b a
    foldlMOpt f b2 as

/-- Method `Row.Height()`: maximum of the cells' `col.Data.Height()`.  The Go
code dereferences `col.Data` without a nil check, so a nil-data cell
panics (`none`). -/
def Row.HeightOpt (r : Row) : Option Nat :=
  foldlMOpt (fun m c => (c.Data.map (fun d => max m d.Height))) 0 r.Columns

/-- Builder `Row.ColumnData(data)`: append a cell inheriting alignment and
format from the corresponding header column (or `Column{}` when the
row is already wider than the header list). -/
def rowColumnData (t : Tabulate) (r : Row) (data : Data) : Row :=
  let hdr := (t.Headers.get? r.Columns.length).getD {}
  { r with Columns :=
      r.Columns ++ [{ Align := hdr.Align, Data := some data, Format := hdr.Format }] }

/-!
The rendering engine (`Tabulate.Print` and `Tabulate.printColumn` of
tabulate.go).  Output is modelled as the exact sequence of strings
passed to `fmt.Fprint`/`fmt.Fprintln` on the sink (`Fprintln(x)` is one
fragment `x ++ "\n"`), so that error handling of the sink can be
studied; `Option` threads the Go panics (nil `Data` dereference).
-/

/-- The vertical-alignment shift of `printColumn`: with
`vspace := height - col.Height()`, Middle subtracts `vspace / 2` (Go's
truncated integer division, `Int.tdiv`), Bottom subtracts `vspace`, Top
and None leave the line unchanged. -/
def alignShiftedLine (a : Align) (line height cellHeight : Int) : Int :=
  match a with
  | .TL | .TC | .TR | .None => line
  | .ML | .MC | .MR => line - Int.tdiv (height - cellHeight) 2
  | .BL | .BC | .BR => line - (height - cellHeight)

/-- The content selection of `printColumn`: `col.Content(line)` is
called only when the shifted line is non-negative, otherwise the
content stays the empty string; the table's escape function is then
applied. -/
def printColumnContent (t : Tabulate) (col : Column) (line height : Int) :
    Option String := do
  let shifted := alignShiftedLine col.Align line height (col.Height : Int)
  let content ← if 0 ≤ shifted then col.Content shifted else pure ""
  pure (match t.Escape with
        | some esc => esc content
        | none => content)

/-- The horizontal padding of `printColumn`: starting from the base
padding `lPad = padding / 2`, `rPad = padding - lPad`, alignment `None`
zeroes both, Left adds all of `pad` to the right, Center adds `pad / 2`
left and the remainder right, Right adds all of `pad` to the left.
Division is Go's truncated `Int.tdiv`. -/
def padSplit (a : Align) (padding pad : Int) : Int × Int :=
  let lPad := Int.tdiv padding 2
  let rPad := padding - lPad
  match a with
  | .None => (0, 0)
  | .TL | .ML | .BL => (lPad, rPad + pad)
  | .TC | .MC | .BC => (lPad + Int.tdiv pad 2, rPad + (pad - Int.tdiv pad 2))
  | .TR | .MR | .BR => (lPad + pad, rPad)

/-- Exactly `n` one-space `Fprint` fragments (a Go `for i := 0; i < n; i++`
loop; a non-positive bound runs zero times). -/
def spaceFrags (n : Int) : List String :=
  List.replicate n.toNat " "

/-- Source `Tabulate.printColumn`: border glyph (left border at column 0, the
middle vertical otherwise, from the header or body set), left padding,
optional VT100 format start, the cell content, optional format reset,
right padding. -/
def printColumn (t : Tabulate) (hdr : Bool) (col : Column) (idx : Nat)
    (line width height : Int) : Option (List String) := do
  let content ← printColumnContent t col line height
  let pad : Int := width - (runeLen content : Int)
  let (lPad, rPad) := padSplit col.Align t.Padding pad
  let b := if hdr then t.Borders.Header else t.Borders.Body
  let glyph := if idx = 0 then b.VL else b.VM
  pure ([glyph] ++ spaceFrags lPad ++
    (if col.Format ≠ .FmtNone then [col.Format.VT100] else []) ++
    [content] ++
    (if col.Format ≠ .FmtNone then [Format.FmtNone.VT100] else []) ++
    spaceFrags rPad)

/-- The `width + padding` repetitions of the horizontal border glyph, one
`Fprint` fragment each. -/
def hChars (g : String) (n : Int) : List String :=
  List.replicate n.toNat g

/-- The per-column part of a horizontal border line: glyph repetitions
followed by the middle junction, the last column followed by the right
corner and the line terminator (`Fprintln`). -/
def borderCells (g tm tr : String) (padding : Int) : List Int → List String
  | [] => []
  | [w] => hChars g (w + padding) ++ [tr ++ "\n"]
  | w :: ws => hChars g (w + padding) ++ [tm] ++ borderCells g tm tr padding ws

/-- A whole horizontal border line: left corner then `borderCells`. -/
def borderLine (lft g tm tr : String) (padding : Int) (widths : List Int) :
    List String :=
  [lft] ++ borderCells g tm tr padding widths

/-- The initial `widths` array: one zero per header, raised to each
header's `hdr.Data.Width()` (an unguarded dereference: nil header data
panics). -/
def headerWidths (hdrs : List Column) : Option (List Int) :=
  mapMOpt (fun h => h.Data.map (fun d => max 0 (d.Width : Int))) hdrs

/-- One row's pass over the `widths` array: positions shared with the
row take the maximum with the cell's guarded `col.Width()`; indices
past the end of `widths` append a 0 entry first. -/
def updWidths : List Int → List Column → List Int
  | ws, [] => ws
  | w :: ws, c :: cs => max w (c.Width : Int) :: updWidths ws cs
  | [], c :: cs => max 0 (c.Width : Int) :: updWidths [] cs

/-- The complete width computation of `Print`. -/
def widthsOf (t : Tabulate) : Option (List Int) := do
  let hw ← headerWidths t.Headers
  pure (t.Rows.foldl (fun ws r => updWidths ws r.Columns) hw)

/-- The header height: maximum of the headers' unguarded
`hdr.Data.Height()`. -/
def headerHeight (hdrs : List Column) : Option Int :=
  foldlMOpt (fun m h => h.Data.map (fun d => max m (d.Height : Int))) 0 hdrs

/-- Go `if idx < len(cols)` then `cols[idx]` else a blank `Column` value. -/
def cellAt (cols : List Column) (idx : Nat) : Column :=
  (cols.get? idx).getD {}

/-- One rendered line of a header or body block: each width column is
rendered by `printColumn` with the cell at that index (a blank
`Column{}` beyond the list), then the right vertical border with the
line terminator. -/
def lineFrags (t : Tabulate) (hdr : Bool) (cols : List Column)
    (widths : List Int) (line height : Int) : Option (List String) := do
  let vr := (if hdr then t.Borders.Header else t.Borders.Body).VR
  let parts ← mapMOpt
    (fun (p : Nat × Int) =>
      printColumn t hdr (cellAt cols p.1) p.1 line p.2 height)
    widths.enum
  pure (parts.flatten ++ [vr ++ "\n"])

/-- A whole block (header lines or one row's lines): lines 0 to
`height - 1`. -/
def blockFrags (t : Tabulate) (hdr : Bool) (cols : List Column)
    (widths : List Int) (height : Int) : Option (List String) := do
  let liness ← mapMOpt
    (fun (i : Nat) => lineFrags t hdr cols widths (i : Int) height)
    (List.range height.toNat)
  pure liness.flatten

/-- The grid branch of `Tabulate.Print` (taken when no custom `Output`
encoder is installed): width computation, top border (skipped when the
header's `HT` glyph is empty), header lines, header/body separator
(skipped when `HM` is empty), each row's lines at the row's height,
bottom border (skipped when the body's `HB` glyph is empty). -/
def printFrags (t : Tabulate) : Option (List String) := do
  let widths ← widthsOf t
  let top :=
    if t.Borders.Header.HT ≠ "" then
      borderLine t.Borders.Header.TL t.Borders.Header.HT t.Borders.Header.TM
        t.Borders.Header.TR t.Padding widths
    else []
  let hh ← headerHeight t.Headers
  let hdrBlock ← blockFrags t true t.Headers widths hh
  let sep :=
    if t.Borders.Header.HM ≠ "" then
      borderLine t.Borders.Header.ML t.Borders.Header.HM t.Borders.Header.MM
        t.Borders.Header.MR t.Padding widths
    else []
  let rowBlocks ← mapMOpt (fun r =>
    (Row.HeightOpt r).bind
      (fun h => blockFrags t false r.Columns widths (h : Int))) t.Rows
  let bot :=
    if t.Borders.Body.HB ≠ "" then
      borderLine t.Borders.Body.BL t.Borders.Body.HB t.Borders.Body.BM
        t.Borders.Body.BR t.Padding widths
    else []
  pure (top ++ hdrBlock ++ sep ++ rowBlocks.flatten ++ bot)

/-- The full text written to the sink by the grid branch of `Print`. -/
def printString (t : Tabulate) : Option String :=
  (printFrags t).map String.join

/-- Method `Tabulate.data()`: return the memoized `asData` if set, otherwise
render the table into a string builder, wrap it as `NewLines` and store
it in `asData`.  The pair is (returned Data, table after the call). -/
def Tabulate.dataFn (t : Tabulate) : Option (Data × Tabulate) :=
  match t.asData with
  | some d => some (d, t)
  | none =>
    (printString t).map fun s =>
      let d := NewLines s
      (d, { t with asData := some d })

/-!
The output sink.  `fmt.Fprint(o, x)` performs one `o.Write` call; the
sink either accepts the write (while it still has `budget`) or fails
it.  `Print` discards the `(n, err)` results of every
`fmt.Fprint`/`fmt.Fprintln` call, so the write loop below ignores the
error flag and always proceeds to the next fragment — a faithful image
of the Go control flow, which contains no branch on a write result.
-/

/-- An output sink that accepts `budget` more writes and then fails
every following write. -/
structure Sink where
  budget : Nat
  written : List String := []
  attempted : Nat := 0

/-- One `Write` call: always counted as attempted; appended to
`written` and charged to the budget only on success.  The Bool is the
error indicator (`true` = success), which `Print` discards. -/
def Sink.write (s : Sink) (f : String) : Sink × Bool :=
  if s.budget = 0 then
    ({ s with attempted := s.attempted + 1 }, false)
  else
    ({ s with budget := s.budget - 1, written := s.written ++ [f]
            , attempted := s.attempted + 1 }, true)

/-- The write loop of `Print`: every fragment is written in sequence,
the per-write error results being dropped exactly as the Go code drops
the results of `fmt.Fprint`. -/
def runWrites (frags : List String) (s : Sink) : Sink :=
  frags.foldl (fun s f => (Sink.write s f).1) s

/-!
The JSON encoder (`MarshalJSON` / `marshalJSON` and `outputJSON`).
`marshalJSON` works on the Column/Row model only through each cell's
`Data`; the type switch `col.Data.(jsonMarshaler)` distinguishes a
nested `*Tabulate` (which recursively marshals its own rows) from every
other Data implementation (whose `String()` text is used).  The cell
model below mirrors exactly that dichotomy: `plain s` is any
non-marshaler Data with `String() = s`, and `table r rows` is a nested
table with rendered text `r` (its `String()`) and body rows `rows`.
-/

/-- A marshalled JSON value: Go's `string`, `map[string]interface{}`
and `[]interface{}` as produced by `marshalJSON`. -/
inductive JValue where
  | str (s : String)
  | obj (entries : List (String × JValue))
  | arr (items : List JValue)

mutual

/-- A cell as seen by `marshalJSON`: either a Data value that does not
implement `jsonMarshaler` (only its `String()` text matters) or a
nested `*Tabulate` (its rendered `String()` plus its rows). -/
inductive JData where
  | plain (s : String)
  | table (rendered : String) (rows : JRows)

/-- One row's cells (`row.Columns`, data only). -/
inductive JRow where
  | nil
  | cons (c : JData) (rest : JRow)

/-- The rows of a table (`t.Rows`). -/
inductive JRows where
  | nil
  | cons (r : JRow) (rest : JRows)

end

/-- Method `Data.String()` of a marshalled cell. -/
def JData.str : JData → String
  | .plain s => s
  | .table r _ => r

/-- Number of cells in a row (`len(row.Columns)`). -/
def JRow.len : JRow → Nat
  | .nil => 0
  | .cons _ rest => 1 + rest.len

/-- Does some top-level row have fewer than two cells? -/
def hasShortRow : JRows → Bool
  | .nil => false
  | .cons r rest => decide (r.len < 2) || hasShortRow rest

mutual

/-- Recursive well-formedness: every row of the table, and of every
nested table, has at least two cells. -/
def JData.wfB : JData → Bool
  | .plain _ => true
  | .table _ rows => rows.wfB

def JRow.wfB : JRow → Bool
  | .nil => true
  | .cons c rest => c.wfB && rest.wfB

def JRows.wfB : JRows → Bool
  | .nil => true
  | .cons r rest => (decide (2 ≤ r.len) && r.wfB) && rest.wfB

end

/-- The error of `marshalJSON` for a row with fewer than two cells. -/
def jsonErrMsg : String := "JSON tabulation must have at least two columns"

/-- Go map assignment `content[key] = v` on an association list:
overwrite an existing binding in place, else append. -/
def insertKV : List (String × JValue) → String → JValue → List (String × JValue)
  | [], k, v => [(k, v)]
  | (k1, v1) :: rest, k, v =>
    if k1 = k then (k, v) :: rest else (k1, v1) :: insertKV rest k v

/-- Go `if len(columns) > 1` then `content[key] = columns` else
`content[key] = columns[0]`. -/
def jsonRowValue : List JValue → JValue
  | [v] => v
  | vs => .arr vs

mutual

/-- Marshal one value cell: a nested table recurses into its rows
(`marshaler.marshalJSON()`), any other Data contributes its
`String()`. -/
def marshalCell : JData → Except String JValue
  | .plain s => .ok (.str s)
  | .table _ rows => (marshalRows rows []).map JValue.obj

/-- Marshal the value cells of a row (`for i := 1; ...`). -/
def marshalCols : JRow → Except String (List JValue)
  | .nil => .ok []
  | .cons c rest =>
    (marshalCell c).bind fun v =>
      (marshalCols rest).bind fun vs => .ok (v :: vs)

/-- The row loop of `Tabulate.marshalJSON`: reject a row with fewer
than two cells, otherwise marshal cells 1.. and bind the result (a
single value, or an array when there are several) to the first cell's
`String()` in the content map. -/
def marshalRows : JRows → List (String × JValue) → Except String (List (String × JValue))
  | .nil, content => .ok content
  | .cons row rest, content =>
    match row with
    | .nil => .error jsonErrMsg
    | .cons _ .nil => .error jsonErrMsg
    | .cons k (.cons c1 cs) =>
      (marshalCols (.cons c1 cs)).bind fun vals =>
        marshalRows rest (insertKV content k.str (jsonRowValue vals))

end

/-- Minimal JSON string escaping (backslash, quote, newline), standing
in for Go's `encoding/json` string encoder. -/
def jsonEscape (s : String) : String :=
  String.mk (s.data.flatMap fun c =>
    if c = '\\' then ['\\', '\\']
    else if c = '"' then ['\\', '"']
    else if c = '\n' then ['\\', 'n']
    else [c])

mutual

/-- Serialization of a marshalled value, standing in for
`json.Marshal` (Go additionally sorts map keys; entry order is not at
issue in any claim). -/
def jsonEncode : JValue → String
  | .str s => "\"" ++ jsonEscape s ++ "\""
  | .obj entries => "\x7b" ++ jsonEncodeObj entries ++ "\x7d"
  | .arr items => "[" ++ jsonEncodeArr items ++ "]"

/-- Comma-joined key/value pairs of an object. -/
def jsonEncodeObj : List (String × JValue) → String
  | [] => ""
  | [(k, v)] => "\"" ++ jsonEscape k ++ "\":" ++ jsonEncode v
  | (k, v) :: rest =>
    "\"" ++ jsonEscape k ++ "\":" ++ jsonEncode v ++ "," ++ jsonEncodeObj rest

/-- Comma-joined items of an array. -/
def jsonEncodeArr : List JValue → String
  | [] => ""
  | [v] => jsonEncode v
  | v :: rest => jsonEncode v ++ "," ++ jsonEncodeArr rest

end

/-- Source `outputJSON`: marshal the whole table into memory first; on error
write `"JSON marshal failed: ..."` and stop, otherwise write the
complete JSON followed by a newline.  The returned string is everything
written to the sink. -/
def outputJSON (rows : JRows) : String :=
  match (marshalRows rows []).map (fun m => jsonEncode (JValue.obj m)) with
  | .error e => "JSON marshal failed: " ++ e
  | .ok s => s ++ "\n"

/-- Modelled from the spec: the display width of a string in terminal
columns, where an East-Asian wide glyph (the spec's example) counts by
its rendered width of two columns and other characters count one.  The
source has no such computation — its `Width()` counts runes — which is
exactly what claim C8 compares. -/
def charDisplayWidth (c : Char) : Nat :=
  if (0x1100 ≤ c.toNat ∧ c.toNat ≤ 0x115F) ∨
     (0x2E80 ≤ c.toNat ∧ c.toNat ≤ 0xA4CF) ∨
     (0xAC00 ≤ c.toNat ∧ c.toNat ≤ 0xD7A3) ∨
     (0xF900 ≤ c.toNat ∧ c.toNat ≤ 0xFAFF) ∨
     (0xFF00 ≤ c.toNat ∧ c.toNat ≤ 0xFF60) ∨
     (0x20000 ≤ c.toNat ∧ c.toNat ≤ 0x3FFFD)
  then 2 else 1

/-- Modelled from the spec: display width of a whole string. -/
def displayWidth (s : String) : Nat :=
  (s.data.map charDisplayWidth).sum

/-- Well-formedness of a table as built through the public API
(`Header`/`HeaderData`, `Row().Column`/`ColumnData`): every header and
every row cell carries a non-nil `Data`.  The engine's own blank
`Column{}` placeholders are not part of the table. -/
def wfTab (t : Tabulate) : Bool :=
  t.Headers.all (fun h => h.Data.isSome) &&
  t.Rows.all (fun r => r.Columns.all (fun c => c.Data.isSome))

end Tab

namespace Tab

/-!  Helper lemmas. -/

theorem linesContent_of_ge (ls : List String) (row : Int)
    (h : (ls.length : Int) ≤ row) : linesContent ls row = some "" := by
  unfold linesContent
  simp [h]

theorem linesContent_of_neg (ls : List String) (row : Int) (h : row < 0) :
    linesContent ls row = none := by
  unfold linesContent
  have h1 : ¬ ((ls.length : Int) ≤ row) := by omega
  simp [h1, h]

theorem linesContent_isSome (ls : List String) (row : Int) (h : 0 ≤ row) :
    (linesContent ls row).isSome := by
  unfold linesContent
  by_cases h1 : (ls.length : Int) ≤ row
  · simp [h1]
  · have h2 : ¬ (row < 0) := by omega
    have h3 : row.toNat < ls.length := by omega
    simp [h1, h2, List.getElem?_eq_getElem h3]

mutual

theorem dataContentOpt_isSome : ∀ (d : Data) (row : Int), 0 ≤ row →
    (Data.ContentOpt d row).isSome
  | .value _, row, _ => by
    unfold Data.ContentOpt
    by_cases h1 : 0 < row <;> simp [h1]
  | .lines _ ls, row, h => linesContent_isSome ls row h
  | .array _ _ cs, row, h => dataListContentOpt_isSome cs row h

theorem dataListContentOpt_isSome : ∀ (cs : DataList) (row : Int), 0 ≤ row →
    (DataList.contentOpt cs row).isSome
  | .nil, _, _ => rfl
  | .cons c cs, row, h => by
    unfold DataList.contentOpt
    by_cases h1 : row < (Data.Height c : Int)
    · simpa [h1] using dataContentOpt_isSome c row h
    · simpa [h1] using dataListContentOpt_isSome cs (row - (Data.Height c : Int)) (by omega)

end

theorem Column.content_isSome (c : Column) (row : Int) (h : 0 ≤ row) :
    (Column.Content c row).isSome := by
  unfold Column.Content
  cases hd : c.Data with
  | none => rfl
  | some d => exact dataContentOpt_isSome d row h

theorem printColumnContent_isSome (t : Tabulate) (col : Column)
    (line height : Int) : (printColumnContent t col line height).isSome := by
  unfold printColumnContent
  by_cases h1 : 0 ≤ alignShiftedLine col.Align line height (col.Height : Int)
  · obtain ⟨s, hs⟩ := Option.isSome_iff_exists.mp
      (Column.content_isSome col (alignShiftedLine col.Align line height (col.Height : Int)) h1)
    simp [h1, hs]
  · simp [h1]

theorem printColumn_isSome (t : Tabulate) (hdr : Bool) (col : Column)
    (idx : Nat) (line width height : Int) :
    (printColumn t hdr col idx line width height).isSome := by
  unfold printColumn
  obtain ⟨s, hs⟩ := Option.isSome_iff_exists.mp
    (printColumnContent_isSome t col line height)
  simp [hs]

end Tab

namespace Tab

theorem linesContent_eq_getD (ls : List String) (row : Int) (h : 0 ≤ row) :
    linesContent ls row = some ((ls.get? row.toNat).getD "") := by
  by_cases h1 : (ls.length : Int) ≤ row
  · rw [linesContent_of_ge _ _ h1]
    have h2 : ls.length ≤ row.toNat := by omega
    simp [List.getElem?_eq_none h2]
  · unfold linesContent
    have h2 : ¬ row < 0 := by omega
    have h3 : row.toNat < ls.length := by omega
    simp [h1, h2, List.getElem?_eq_getElem h3]

end Tab

namespace Tab

/-- C10: during rendering every `Content` call receives a non-negative
line index: `printColumn` guards the call with `line >= 0`, so it never
reaches the negative-index panic of `Lines.Content` (whose own guard
checks only `row >= height` and would index the slice with a negative
index, conjunct 2); hence `printColumn` is total (conjunct 1, `isSome`
for all inputs, any cell data).  `Content` with an index at or above
the height returns the empty string (conjuncts 3 and 4 for `Lines` and
`Value`). -/
theorem c10_content_index_safety :
    (∀ (t : Tabulate) (hdr : Bool) (col : Column) (idx : Nat)
       (line width height : Int),
       (printColumn t hdr col idx line width height).isSome = true) ∧
    (∀ (ls : List String) (i : Int), i < 0 → linesContent ls i = none) ∧
    (∀ (ls : List String) (i : Int), (ls.length : Int) ≤ i →
       linesContent ls i = some "") ∧
    (∀ (s : String) (i : Int), (1 : Int) ≤ i →
       Data.ContentOpt (.value s) i = some "") := by
  refine ⟨printColumn_isSome, linesContent_of_neg, linesContent_of_ge, ?_⟩
  intro s i h
  unfold Data.ContentOpt
  have h1 : 0 < i := by omega
  simp [h1]

/-- Witness for C10 at concrete inputs: a blank `Column{}` cell in a
3-line block renders (no panic), `Lines.Content` past the height is
empty, and on a negative index it would panic. -/
theorem c10_content_index_safety_witness :
    (printColumn (New .ASCII) false {} 0 1 4 3).isSome = true ∧
    linesContent ["a", "b"] (-1) = none ∧
    linesContent ["a", "b"] 2 = some "" ∧
    Data.ContentOpt (.value "x") 1 = some "" :=
  ⟨c10_content_index_safety.1 (New .ASCII) false {} 0 1 4 3,
   c10_content_index_safety.2.1 ["a", "b"] (-1) (by decide),
   c10_content_index_safety.2.2.1 ["a", "b"] 2 (by decide),
   c10_content_index_safety.2.2.2 "x" 1 (by decide)⟩

end Tab

namespace Tab

theorem printColumnContent_eq (t : Tabulate) (col : Column) (line height : Int) :
    printColumnContent t col line height =
      (if 0 ≤ alignShiftedLine col.Align line height (col.Height : Int)
       then Column.Content col (alignShiftedLine col.Align line height (col.Height : Int))
       else some "").map
        (fun content =>
          match t.Escape with
          | some esc => esc content
          | none => content) := by
  unfold printColumnContent
  by_cases h : 0 ≤ alignShiftedLine col.Align line height (col.Height : Int)
  · cases hc : Column.Content col (alignShiftedLine col.Align line height (col.Height : Int)) <;>
      simp [h, hc]
  · simp [h]

end Tab

namespace Tab

/-- C3: vertical alignment.  Conjunct 1: the Middle shift is exactly
`-(H - cellHeight)/2` with Go's truncated division (`Int.tdiv`) and the
Bottom shift is `-(H - cellHeight)`.  Conjunct 2: a negative shifted
index renders blank without any `content()` call — for every cell,
including ones whose `Content` would panic on that index.  Conjuncts 3
and 4: for a `Lines` cell of height `h` in a block of height `H`,
Middle alignment shows cell line `i - (H-h)/2` at requested line `i`
(blank for `i` below `(H-h)/2` and past the cell's last line), so with
an odd deficit the extra blank line falls at the bottom; Bottom
alignment uses shift `H - h` the same way.  The height-1 cell in a
height-3 block appearing exactly on line 1 is the witness. -/
theorem c3_vertical_alignment :
    (∀ (i H ch : Int),
       (alignShiftedLine .ML i H ch = i - Int.tdiv (H - ch) 2 ∧
        alignShiftedLine .MC i H ch = i - Int.tdiv (H - ch) 2 ∧
        alignShiftedLine .MR i H ch = i - Int.tdiv (H - ch) 2) ∧
       (alignShiftedLine .BL i H ch = i - (H - ch) ∧
        alignShiftedLine .BC i H ch = i - (H - ch) ∧
        alignShiftedLine .BR i H ch = i - (H - ch))) ∧
    (∀ (t : Tabulate) (col : Column) (i H : Int), t.Escape = none →
       alignShiftedLine col.Align i H (col.Height : Int) < 0 →
       printColumnContent t col i H = some "") ∧
    (∀ (t : Tabulate) (a : Align) (f : Format) (mw : Nat) (ls : List String)
       (i H : Int), t.Escape = none → (a = .ML ∨ a = .MC ∨ a = .MR) →
       printColumnContent t { Align := a, Data := some (.lines mw ls), Format := f } i H =
         some (if Int.tdiv (H - ls.length) 2 ≤ i
               then (ls.get? (i - Int.tdiv (H - ls.length) 2).toNat).getD ""
               else "")) ∧
    (∀ (t : Tabulate) (a : Align) (f : Format) (mw : Nat) (ls : List String)
       (i H : Int), t.Escape = none → (a = .BL ∨ a = .BC ∨ a = .BR) →
       printColumnContent t { Align := a, Data := some (.lines mw ls), Format := f } i H =
         some (if H - ls.length ≤ i
               then (ls.get? (i - (H - ls.length)).toNat).getD ""
               else "")) := by
  refine ⟨fun i H ch => ⟨⟨rfl, rfl, rfl⟩, ⟨rfl, rfl, rfl⟩⟩, ?_, ?_, ?_⟩
  · intro t col i H hesc hneg
    rw [printColumnContent_eq]
    have h1 : ¬ (0 ≤ alignShiftedLine col.Align i H (col.Height : Int)) := by omega
    simp [h1, hesc]
  · intro t a f mw ls i H hesc ha
    have key : ∀ (a1 : Align),
        alignShiftedLine a1 i H
          ((Column.Height { Align := a1, Data := some (.lines mw ls), Format := f } : Nat) : Int) =
          i - Int.tdiv (H - ls.length) 2 →
        printColumnContent t { Align := a1, Data := some (.lines mw ls), Format := f } i H =
          some (if Int.tdiv (H - ls.length) 2 ≤ i
                then (ls.get? (i - Int.tdiv (H - ls.length) 2).toNat).getD ""
                else "") := by
      intro a1 hshift
      rw [printColumnContent_eq, hshift]
      by_cases hcase : Int.tdiv (H - (ls.length : Int)) 2 ≤ i
      · have h0 : 0 ≤ i - Int.tdiv (H - (ls.length : Int)) 2 := by omega
        have hc : Column.Content { Align := a1, Data := some (.lines mw ls), Format := f }
            (i - Int.tdiv (H - (ls.length : Int)) 2) =
            linesContent ls (i - Int.tdiv (H - (ls.length : Int)) 2) := rfl
        rw [if_pos h0, hc, linesContent_eq_getD _ _ h0]
        simp [hesc, hcase]
      · have h0 : ¬ (0 ≤ i - Int.tdiv (H - (ls.length : Int)) 2) := by omega
        rw [if_neg h0]
        simp [hesc, hcase]
    rcases ha with rfl | rfl | rfl <;> exact key _ rfl
  · intro t a f mw ls i H hesc ha
    have key : ∀ (a1 : Align),
        alignShiftedLine a1 i H
          ((Column.Height { Align := a1, Data := some (.lines mw ls), Format := f } : Nat) : Int) =
          i - (H - ls.length) →
        printColumnContent t { Align := a1, Data := some (.lines mw ls), Format := f } i H =
          some (if H - ls.length ≤ i
                then (ls.get? (i - (H - ls.length)).toNat).getD ""
                else "") := by
      intro a1 hshift
      rw [printColumnContent_eq, hshift]
      by_cases hcase : H - (ls.length : Int) ≤ i
      · have h0 : 0 ≤ i - (H - (ls.length : Int)) := by omega
        have hc : Column.Content { Align := a1, Data := some (.lines mw ls), Format := f }
            (i - (H - (ls.length : Int))) =
            linesContent ls (i - (H - (ls.length : Int))) := rfl
        rw [if_pos h0, hc, linesContent_eq_getD _ _ h0]
        simp [hesc, hcase]
      · have h0 : ¬ (0 ≤ i - (H - (ls.length : Int))) := by omega
        rw [if_neg h0]
        simp [hesc, hcase]
    rcases ha with rfl | rfl | rfl <;> exact key _ rfl

/-- Witness for C3: a height-1 cell with Middle alignment in a block of
height 3 appears exactly on line index 1, lines 0 and 2 blank; the
shift equations and the blank-when-negative case at concrete values. -/
theorem c3_vertical_alignment_witness :
    (alignShiftedLine .MC 0 4 1 = -1 ∧ alignShiftedLine .BL 0 4 1 = -3) ∧
    printColumnContent (New .ASCII) { Align := .ML, Data := some (.lines 1 ["x"]) } 0 3 = some "" ∧
    printColumnContent (New .ASCII) { Align := .ML, Data := some (.lines 1 ["x"]) } 1 3 = some "x" ∧
    printColumnContent (New .ASCII) { Align := .ML, Data := some (.lines 1 ["x"]) } 2 3 = some "" := by
  refine ⟨⟨(c3_vertical_alignment.1 0 4 1).1.2.1.trans (by decide),
           (c3_vertical_alignment.1 0 4 1).2.1.trans (by decide)⟩, ?_, ?_, ?_⟩
  · rw [c3_vertical_alignment.2.2.1 (New .ASCII) .ML .FmtNone 1 ["x"] 0 3 rfl (Or.inl rfl)]
    decide
  · rw [c3_vertical_alignment.2.2.1 (New .ASCII) .ML .FmtNone 1 ["x"] 1 3 rfl (Or.inl rfl)]
    decide
  · rw [c3_vertical_alignment.2.2.1 (New .ASCII) .ML .FmtNone 1 ["x"] 2 3 rfl (Or.inl rfl)]
    decide

end Tab

namespace Tab

/-- C4: horizontal padding.  Conjunct 1: a rendered cell is the border
glyph, `lPad` spaces, the content, `rPad` spaces (for an unformatted
cell), where `(lPad, rPad) = padSplit align padding pad` with
`pad = columnWidth - runeLen content`.  Conjuncts 2-5: `None` alignment
suppresses base and alignment padding entirely; Left alignment puts the
base `padding/2` (rounded down) on the left and the base remainder plus
all of `pad` on the right; Right alignment is the mirror; Center puts
`pad/2` (truncated) left and the remainder right, on top of the base
split. -/
theorem c4_horizontal_padding :
    (∀ (t : Tabulate) (hdr : Bool) (col : Column) (idx : Nat)
       (line width height : Int) (content : String),
       printColumnContent t col line height = some content →
       col.Format = .FmtNone →
       printColumn t hdr col idx line width height =
         some ([if idx = 0 then (if hdr then t.Borders.Header else t.Borders.Body).VL
                else (if hdr then t.Borders.Header else t.Borders.Body).VM] ++
           List.replicate (padSplit col.Align t.Padding (width - (runeLen content : Int))).1.toNat " " ++
           [content] ++
           List.replicate (padSplit col.Align t.Padding (width - (runeLen content : Int))).2.toNat " ")) ∧
    (∀ (p pad : Int), padSplit .None p pad = (0, 0)) ∧
    (∀ (p pad : Int) (a : Align), (a = .TL ∨ a = .ML ∨ a = .BL) →
       padSplit a p pad = (Int.tdiv p 2, (p - Int.tdiv p 2) + pad)) ∧
    (∀ (p pad : Int) (a : Align), (a = .TR ∨ a = .MR ∨ a = .BR) →
       padSplit a p pad = (Int.tdiv p 2 + pad, p - Int.tdiv p 2)) ∧
    (∀ (p pad : Int) (a : Align), (a = .TC ∨ a = .MC ∨ a = .BC) →
       padSplit a p pad =
         (Int.tdiv p 2 + Int.tdiv pad 2, (p - Int.tdiv p 2) + (pad - Int.tdiv pad 2))) := by
  refine ⟨?_, fun p pad => rfl, ?_, ?_, ?_⟩
  · intro t hdr col idx line width height content hcontent hfmt
    unfold printColumn
    rw [hcontent]
    simp [hfmt, spaceFrags]
  · intro p pad a ha
    rcases ha with rfl | rfl | rfl <;> rfl
  · intro p pad a ha
    rcases ha with rfl | rfl | rfl <;> rfl
  · intro p pad a ha
    rcases ha with rfl | rfl | rfl <;> rfl

/-- Witness for C4: a left-aligned 4-wide cell ("2018") in a 4-wide
column with padding 2: one base space left, one base space right, no
alignment pad; plus the `padSplit` equations at concrete values. -/
theorem c4_horizontal_padding_witness :
    printColumn (New .ASCII) false { Align := .TL, Data := some (.lines 4 ["2018"]) } 0 0 4 1 =
      some (["|"] ++ List.replicate 1 " " ++ ["2018"] ++ List.replicate 1 " ") ∧
    padSplit .None 2 5 = (0, 0) ∧
    padSplit .TL 2 5 = (1, 6) ∧
    padSplit .TR 2 5 = (6, 1) ∧
    padSplit .TC 2 5 = (3, 4) := by
  refine ⟨?_, c4_horizontal_padding.2.1 2 5,
    (c4_horizontal_padding.2.2.1 2 5 .TL (Or.inl rfl)).trans (by decide),
    (c4_horizontal_padding.2.2.2.1 2 5 .TR (Or.inl rfl)).trans (by decide),
    (c4_horizontal_padding.2.2.2.2 2 5 .TC (Or.inl rfl)).trans (by decide)⟩
  rw [c4_horizontal_padding.1 (New .ASCII) false
    { Align := .TL, Data := some (.lines 4 ["2018"]) } 0 0 4 1 "2018" (by decide) rfl]
  decide

end Tab

namespace Tab

/-- The failing input for claim C2: an ASCII-style table with headers
Year/Income/Expenses and zero rows (the repo test case
`borderTestHdrOnly`). -/
def hdrOnlyASCII : Tabulate :=
  (((New .ASCII).Header "Year").Header "Income").Header "Expenses"

set_option maxRecDepth 20000 in
/-- C2 evaluated at the failing input: with at least one header and
zero rows the code emits the top border, the header line, the
header/body separator, and the bottom border — four lines, the third
being the header/body separator that the claim (and the repository's
own expected test output, which lists only three lines here) says must
not appear.  `Print` emits the separator whenever the header's `HM`
glyph is non-empty, with no check that a body follows. -/
theorem c2_header_only_emits_separator :
    hdrOnlyASCII.Rows = [] ∧
    printString hdrOnlyASCII =
      some ("+------+--------+----------+\n" ++
            "| Year | Income | Expenses |\n" ++
            "+------+--------+----------+\n" ++
            "+------+--------+----------+\n") := by
  exact ⟨rfl, by decide⟩

end Tab

namespace Tab

/-- A two-column CSV-style table (headers Year/Income, one row
2018/100, `None` alignment as in the repository's CSV test). -/
def csvExample : Tabulate :=
  let t0 : Tabulate := { New .CSV with Headers := [
    { Align := .None, Data := some (NewLines "Year") },
    { Align := .None, Data := some (NewLines "Income") }] }
  { t0 with Rows := [ { Columns := [
      { Align := .None, Data := some (NewLines "2018") },
      { Align := .None, Data := some (NewLines "100") }] } ] }

/-- C5 counterexample: the claim says a field is quoted exactly when it
contains a comma, a double quote, or a newline; but `escapeCSV` checks
only for a double quote and a newline, so the comma-bearing field
`a,b` is emitted raw, unquoted. -/
theorem c5_comma_not_quoted :
    escapeCSV "a,b" = "a,b" ∧
    containsRune "a,b" ',' = true ∧
    ¬ escapeCSV "a,b" = "\"a,b\"" := by
  refine ⟨by decide, by decide, by decide⟩

/-- C5 amended: a field is wrapped in double quotes, with embedded
double quotes doubled, exactly when it contains a double quote or a
newline (a comma alone does not trigger quoting), and is otherwise
emitted raw; fields are separated by the comma `VM` glyph and row lines
are terminated by `VR ++ "\n" = CRLF` (the engine ends every row line
with `Fprintln(VR)`), as the concrete two-column render shows. -/
theorem c5_csv_escaping_amended :
    (∀ s : String, escapeCSV s =
       if containsRune s '"' || containsRune s '\n'
       then "\"" ++ String.mk (s.data.flatMap
              (fun r => if r = '"' then ['"', '"'] else [r])) ++ "\""
       else s) ∧
    (New .CSV).Escape = some escapeCSV ∧
    (New .CSV).Borders.Header.VM = "," ∧
    (New .CSV).Borders.Body.VM = "," ∧
    (New .CSV).Borders.Header.VR ++ "\n" = "\r\n" ∧
    (New .CSV).Borders.Body.VR ++ "\n" = "\r\n" ∧
    printString csvExample = some "Year,Income\r\n2018,100\r\n" := by
  refine ⟨?_, rfl, rfl, rfl, rfl, rfl, by decide⟩
  intro s
  unfold escapeCSV
  by_cases h1 : containsRune s '"'
  · have h2 : ¬ (¬ containsRune s '"' = true ∧ ¬ containsRune s '\n' = true) := by
      simp [h1]
    rw [if_neg h2]
    have : (fun r => if r = '"' then ['"', r] else [r]) =
        (fun r : Char => if r = '"' then ['"', '"'] else [r]) := by
      funext r
      by_cases hr : r = '"' <;> simp [hr]
    simp [h1, this]
  · by_cases h3 : containsRune s '\n'
    · have h2 : ¬ (¬ containsRune s '"' = true ∧ ¬ containsRune s '\n' = true) := by
        simp [h3]
      rw [if_neg h2]
      have : (fun r => if r = '"' then ['"', r] else [r]) =
          (fun r : Char => if r = '"' then ['"', '"'] else [r]) := by
        funext r
        by_cases hr : r = '"' <;> simp [hr]
      simp [h1, h3, this]
    · have h2 : (¬ containsRune s '"' = true ∧ ¬ containsRune s '\n' = true) := by
        simp [h1, h3]
      rw [if_pos h2]
      simp [h1, h3]

end Tab

namespace Tab

/-- C8 counterexample: the East-Asian wide ideograph 宽 (U+5BBD)
occupies two terminal columns (`displayWidth`, the spec's
display-column measure) but the code's `Width()` reports 1 — it counts
runes (`len([]rune ...)`), not rendered terminal width. -/
theorem c8_width_not_display_columns :
    Data.Width (.value "宽") = 1 ∧
    Data.Width (NewText "宽") = 1 ∧
    displayWidth "宽" = 2 ∧
    ¬ Data.Width (.value "宽") = displayWidth "宽" :=
  ⟨by decide, by decide, by decide, by decide⟩

/-- C8 amended: `Width()` reports the rune (code-point) count of the
widest line — every character counts one column regardless of its
rendered terminal width — and the per-cell padding computation uses
the same rune count (`pad = width - runeLen content`). -/
theorem c8_width_codepoints :
    (∀ ls : List String, Data.Width (NewLinesData ls) =
       ls.foldl (fun m l => max m (runeLen l)) 0) ∧
    (∀ s : String, Data.Width (.value s) = runeLen s) ∧
    (∀ s : String, Data.Width (NewText s) = runeLen s) ∧
    (∀ (t : Tabulate) (hdr : Bool) (col : Column) (idx : Nat)
       (line width height : Int),
       printColumn t hdr col idx line width height =
         (printColumnContent t col line height).map (fun content =>
           [if idx = 0 then (if hdr then t.Borders.Header else t.Borders.Body).VL
            else (if hdr then t.Borders.Header else t.Borders.Body).VM] ++
           spaceFrags (padSplit col.Align t.Padding
             (width - (runeLen content : Int))).1 ++
           (if col.Format ≠ .FmtNone then [col.Format.VT100] else []) ++
           [content] ++
           (if col.Format ≠ .FmtNone then [Format.FmtNone.VT100] else []) ++
           spaceFrags (padSplit col.Align t.Padding
             (width - (runeLen content : Int))).2)) := by
  refine ⟨fun ls => rfl, fun s => rfl, fun s => rfl, ?_⟩
  intro t hdr col idx line width height
  unfold printColumn
  cases hc : printColumnContent t col line height <;> simp [hc]

end Tab

namespace Tab

theorem runWrites_attempted (frags : List String) (s : Sink) :
    (runWrites frags s).attempted = s.attempted + frags.length := by
  induction frags generalizing s with
  | nil => rfl
  | cons f fs ih =>
    show (runWrites fs (Sink.write s f).1).attempted = _
    rw [ih]
    unfold Sink.write
    by_cases h : s.budget = 0 <;> simp [h] <;> omega

theorem runWrites_written (frags : List String) (s : Sink) :
    (runWrites frags s).written = s.written ++ frags.take s.budget := by
  induction frags generalizing s with
  | nil => simp [runWrites]
  | cons f fs ih =>
    show (runWrites fs (Sink.write s f).1).written = _
    rw [ih]
    unfold Sink.write
    by_cases h : s.budget = 0
    · simp [h]
    · obtain ⟨n, hn⟩ : ∃ n, s.budget = n + 1 := ⟨s.budget - 1, by omega⟩
      simp [h, hn]

set_option maxRecDepth 40000 in
/-- C7 counterexample: with a sink whose every write fails
(`budget := 0`), rendering the header-only ASCII table still attempts
all 97 write fragments — the engine does not abort at (or after) the
first failed write, and nothing reaches the sink.  (`Print` also has no
error result to surface: the model's write loop drops each write's
error exactly as the Go code discards every `fmt.Fprint` result.) -/
theorem c7_write_failure_not_aborted :
    (runWrites ((printFrags hdrOnlyASCII).getD []) { budget := 0 }).attempted = 97 ∧
    ¬ (runWrites ((printFrags hdrOnlyASCII).getD []) { budget := 0 }).attempted ≤ 1 ∧
    (runWrites ((printFrags hdrOnlyASCII).getD []) { budget := 0 }).written = [] := by
  refine ⟨?_, ?_, ?_⟩ <;> decide

/-- C7 amended: `Print` ignores write errors entirely: every fragment
of the rendering is attempted exactly once, in sequence, regardless of
earlier failures (no retry, but also no abort and no surfaced error),
and the sink retains exactly the successfully-written prefix. -/
theorem c7_print_ignores_write_errors :
    ∀ (t : Tabulate) (s : Sink),
      (runWrites ((printFrags t).getD []) s).attempted =
        s.attempted + ((printFrags t).getD []).length ∧
      (runWrites ((printFrags t).getD []) s).written =
        s.written ++ ((printFrags t).getD []).take s.budget :=
  fun t s => ⟨runWrites_attempted _ s, runWrites_written _ s⟩

end Tab

namespace Tab

theorem printFrags_cache_independent (t : Tabulate) (x : Option Data) :
    printFrags { t with asData := x } = printFrags t := rfl

/-- C9: rendering is idempotent and does not mutate the table.
Conjunct 1: the grid rendering never reads the `asData` cache — the
output is the same for every cache state — so printing an unmutated
table twice is byte-identical (in particular after a `data()` call, the
only internal mutation there is).  Conjunct 2: `data()` on a fresh
table (nil cache) renders once and stores `NewLines` of the rendered
text.  Conjunct 3: a second `data()` call returns the cached Data and
leaves the table unchanged, and the table still prints the same. -/
theorem c9_idempotent_memoized :
    (∀ (t : Tabulate) (x : Option Data),
       printString { t with asData := x } = printString t) ∧
    (∀ (t : Tabulate) (s : String), t.asData = none → printString t = some s →
       Tabulate.dataFn t = some (NewLines s, { t with asData := some (NewLines s) })) ∧
    (∀ (t t2 : Tabulate) (d : Data), Tabulate.dataFn t = some (d, t2) →
       Tabulate.dataFn t2 = some (d, t2) ∧ printString t2 = printString t) := by
  refine ⟨fun t x => rfl, ?_, ?_⟩
  · intro t s hnone hps
    unfold Tabulate.dataFn
    rw [hnone, hps]
    rfl
  · intro t t2 d h
    unfold Tabulate.dataFn at h
    cases hc : t.asData with
    | some d0 =>
      rw [hc] at h
      have hd : d0 = d := congrArg Prod.fst (Option.some.inj h)
      have ht : t = t2 := congrArg Prod.snd (Option.some.inj h)
      subst hd
      subst ht
      refine ⟨?_, rfl⟩
      unfold Tabulate.dataFn
      rw [hc]
    | none =>
      rw [hc] at h
      cases hps : printString t with
      | none =>
        rw [hps] at h
        exact absurd h (by simp)
      | some s =>
        rw [hps] at h
        simp only [Option.map_some'] at h
        have hd : NewLines s = d := congrArg Prod.fst (Option.some.inj h)
        have ht : { t with asData := some (NewLines s) } = t2 :=
          congrArg Prod.snd (Option.some.inj h)
        subst hd
        subst ht
        constructor
        · show Tabulate.dataFn _ = _
          unfold Tabulate.dataFn
          rfl
        · rw [← hps]
          rfl

set_option maxRecDepth 40000 in
/-- Witness for C9 at the concrete header-only ASCII table: a fresh
table renders and caches its own four-line text, and a second `data()`
call returns the cache unchanged. -/
theorem c9_idempotent_memoized_witness :
    printString { hdrOnlyASCII with asData := some (.value "x") } = printString hdrOnlyASCII ∧
    Tabulate.dataFn hdrOnlyASCII =
      some (NewLines ("+------+--------+----------+\n| Year | Income | Expenses |\n" ++
                      "+------+--------+----------+\n+------+--------+----------+\n"),
            { hdrOnlyASCII with asData := some (NewLines
                ("+------+--------+----------+\n| Year | Income | Expenses |\n" ++
                 "+------+--------+----------+\n+------+--------+----------+\n")) }) := by
  refine ⟨c9_idempotent_memoized.1 hdrOnlyASCII (some (.value "x")), ?_⟩
  exact c9_idempotent_memoized.2.1 hdrOnlyASCII _ rfl (by decide)

end Tab

namespace Tab

/-- The width contributed at index `c` by a list of cells: the cell's
guarded `Width()` when a cell exists there, else 0. -/
def cellWidthAt (cols : List Column) (c : Nat) : Int :=
  match cols.get? c with
  | some col => (col.Width : Int)
  | none => 0

/-- The width contributed at index `c` by one row. -/
def rowCellWidth (r : Row) (c : Nat) : Int :=
  cellWidthAt r.Columns c

/-- The width contributed at index `c` by the header list. -/
def headerCellWidth (hs : List Column) (c : Nat) : Int :=
  match hs.get? c with
  | some h => (Column.Width h : Int)
  | none => 0

theorem cellWidthAt_nonneg (cols : List Column) (c : Nat) :
    0 ≤ cellWidthAt cols c := by
  unfold cellWidthAt
  cases cols.get? c <;> simp

theorem updWidths_length (ws : List Int) (cols : List Column) :
    (updWidths ws cols).length = max ws.length cols.length := by
  induction cols generalizing ws with
  | nil => cases ws <;> simp [updWidths]
  | cons col cs ih =>
    cases ws with
    | nil => simp [updWidths, ih]
    | cons w wsr => simp [updWidths, ih]; omega

theorem updWidths_nonneg (ws : List Int) (cols : List Column)
    (hws : ∀ x ∈ ws, 0 ≤ x) : ∀ x ∈ updWidths ws cols, 0 ≤ x := by
  induction cols generalizing ws with
  | nil => cases ws <;> simpa [updWidths] using hws
  | cons col cs ih =>
    cases ws with
    | nil =>
      intro x hx
      rcases List.mem_cons.mp hx with rfl | h
      · omega
      · exact ih [] (by simp) x h
    | cons w wsr =>
      intro x hx
      rcases List.mem_cons.mp hx with rfl | h
      · have := hws w (by simp)
        omega
      · exact ih wsr (fun y hy => hws y (by simp [hy])) x h

theorem updWidths_getD (ws : List Int) (cols : List Column) (c : Nat)
    (hws : ∀ x ∈ ws, 0 ≤ x) :
    (updWidths ws cols).getD c 0 = max (ws.getD c 0) (cellWidthAt cols c) := by
  induction cols generalizing ws c with
  | nil =>
    cases ws with
    | nil => simp [updWidths, cellWidthAt]
    | cons w wsr =>
      show (w :: wsr).getD c 0 = _
      have h0 : cellWidthAt [] c = 0 := by simp [cellWidthAt]
      rw [h0]
      by_cases hc : c < (w :: wsr).length
      · have hmem : (w :: wsr).getD c 0 ∈ (w :: wsr) := by
          rw [List.getD_eq_getElem _ _ hc]
          exact List.getElem_mem hc
        have := hws _ hmem
        omega
      · rw [List.getD_eq_default _ _ (by omega)]
        simp
  | cons col cs ih =>
    cases ws with
    | nil =>
      cases c with
      | zero => simp [updWidths, cellWidthAt]
      | succ n =>
        show (updWidths [] cs).getD n 0 = _
        rw [ih [] n (by simp)]
        simp [cellWidthAt]
    | cons w wsr =>
      cases c with
      | zero => simp [updWidths, cellWidthAt]
      | succ n =>
        show (updWidths wsr cs).getD n 0 = _
        rw [ih wsr n (fun y hy => hws y (by simp [hy]))]
        simp [cellWidthAt]

theorem foldl_max_shift {α : Type} (g : α → Int) (l : List α) (a : Int)
    (ha : 0 ≤ a) (hg : ∀ x ∈ l, 0 ≤ g x) :
    l.foldl (fun m x => max m (g x)) a =
      max a (l.foldl (fun m x => max m (g x)) 0) := by
  induction l generalizing a with
  | nil => simpa using ha
  | cons x xs ih =>
    show xs.foldl _ (max a (g x)) = max a (xs.foldl _ (max 0 (g x)))
    rw [ih (max a (g x)) (by omega) (fun y hy => hg y (by simp [hy])),
        ih (max 0 (g x)) (by omega) (fun y hy => hg y (by simp [hy]))]
    have := hg x (by simp)
    omega

theorem foldl_updWidths_getD (rows : List Row) (ws : List Int) (c : Nat)
    (hws : ∀ x ∈ ws, 0 ≤ x) :
    (rows.foldl (fun ws r => updWidths ws r.Columns) ws).getD c 0 =
      max (ws.getD c 0)
          (rows.foldl (fun m r => max m (rowCellWidth r c)) 0) := by
  induction rows generalizing ws with
  | nil =>
    show ws.getD c 0 = max (ws.getD c 0) 0
    by_cases hc : c < ws.length
    · have hmem : ws.getD c 0 ∈ ws := by
        rw [List.getD_eq_getElem _ _ hc]
        exact List.getElem_mem hc
      have := hws _ hmem
      omega
    · rw [List.getD_eq_default _ _ (by omega)]
      simp
  | cons r rs ih =>
    show (rs.foldl _ (updWidths ws r.Columns)).getD c 0 = _
    rw [ih (updWidths ws r.Columns) (updWidths_nonneg ws r.Columns hws),
        updWidths_getD ws r.Columns c hws]
    show _ = max (ws.getD c 0) (rs.foldl _ (max 0 (rowCellWidth r c)))
    rw [foldl_max_shift (fun r => rowCellWidth r c) rs (max 0 (rowCellWidth r c))
      (by omega) (fun y _ => cellWidthAt_nonneg y.Columns c)]
    have := cellWidthAt_nonneg r.Columns c
    unfold rowCellWidth
    omega

theorem foldl_updWidths_length (rows : List Row) (ws : List Int) :
    (rows.foldl (fun ws r => updWidths ws r.Columns) ws).length =
      rows.foldl (fun m r => max m r.Columns.length) ws.length := by
  induction rows generalizing ws with
  | nil => rfl
  | cons r rs ih =>
    show (rs.foldl _ (updWidths ws r.Columns)).length = _
    rw [ih (updWidths ws r.Columns), updWidths_length]
    rfl

end Tab

namespace Tab

theorem headerWidths_spec : ∀ (hs : List Column) (hw : List Int),
    headerWidths hs = some hw →
    hw.length = hs.length ∧ (∀ x ∈ hw, 0 ≤ x) ∧
      ∀ c, hw.getD c 0 = headerCellWidth hs c := by
  intro hs
  induction hs with
  | nil =>
    intro hw h
    have : hw = [] := by
      simpa [headerWidths, mapMOpt] using h.symm
    subst this
    refine ⟨rfl, by simp, fun c => by simp [headerCellWidth]⟩
  | cons hcol hs ih =>
    intro hw h
    unfold headerWidths at h
    unfold mapMOpt at h
    cases hd : hcol.Data with
    | none => rw [hd] at h; exact absurd h (by simp)
    | some d =>
      rw [hd] at h
      cases hrest : mapMOpt (fun h => h.Data.map (fun d => max 0 (d.Width : Int))) hs with
      | none => rw [hrest] at h; exact absurd h (by simp)
      | some vs =>
        rw [hrest] at h
        have hw_eq : hw = max 0 (d.Width : Int) :: vs := by
          simpa using h.symm
        subst hw_eq
        obtain ⟨ihlen, ihnn, ihget⟩ := ih vs hrest
        refine ⟨by simp [ihlen], ?_, ?_⟩
        · intro x hx
          rcases List.mem_cons.mp hx with rfl | hx
          · omega
          · exact ihnn x hx
        · intro c
          cases c with
          | zero =>
            show max 0 (d.Width : Int) = headerCellWidth (hcol :: hs) 0
            have h2 : headerCellWidth (hcol :: hs) 0 = (Column.Width hcol : Int) := by
              simp [headerCellWidth]
            have h3 : Column.Width hcol = d.Width := by
              unfold Column.Width
              rw [hd]
            rw [h2, h3]
            omega
          | succ n =>
            show vs.getD n 0 = headerCellWidth (hcol :: hs) (n + 1)
            rw [ihget n]
            simp [headerCellWidth]

theorem mapMOpt_isSome {α β : Type} (f : α → Option β) (l : List α)
    (h : ∀ a ∈ l, (f a).isSome) : (mapMOpt f l).isSome := by
  induction l with
  | nil => rfl
  | cons a as ih =>
    unfold mapMOpt
    obtain ⟨b, hb⟩ := Option.isSome_iff_exists.mp (h a (by simp))
    obtain ⟨bs, hbs⟩ := Option.isSome_iff_exists.mp
      (ih (fun x hx => h x (by simp [hx])))
    simp [hb, hbs]

theorem foldlMOpt_isSome {α β : Type} (f : β → α → Option β) (l : List α)
    (b : β) (h : ∀ b1 a, a ∈ l → (f b1 a).isSome) : (foldlMOpt f b l).isSome := by
  induction l generalizing b with
  | nil => rfl
  | cons a as ih =>
    unfold foldlMOpt
    obtain ⟨b2, hb2⟩ := Option.isSome_iff_exists.mp (h b a (by simp))
    simpa [hb2] using ih b2 (fun b1 x hx => h b1 x (by simp [hx]))

theorem headerHeight_isSome (hs : List Column)
    (hwf : ∀ h ∈ hs, h.Data.isSome) : (headerHeight hs).isSome := by
  refine foldlMOpt_isSome _ hs 0 (fun b1 a ha => ?_)
  obtain ⟨d, hd⟩ := Option.isSome_iff_exists.mp (hwf a ha)
  simp [hd]

theorem rowHeight_isSome (r : Row)
    (hwf : ∀ c ∈ r.Columns, c.Data.isSome) : r.HeightOpt.isSome := by
  unfold Row.HeightOpt
  refine foldlMOpt_isSome _ r.Columns 0 (fun b1 a ha => ?_)
  obtain ⟨d, hd⟩ := Option.isSome_iff_exists.mp (hwf a ha)
  simp [hd]

theorem lineFrags_isSome (t : Tabulate) (hdr : Bool) (cols : List Column)
    (widths : List Int) (line height : Int) :
    (lineFrags t hdr cols widths line height).isSome := by
  unfold lineFrags
  obtain ⟨parts, hparts⟩ := Option.isSome_iff_exists.mp
    (mapMOpt_isSome
      (fun (p : Nat × Int) => printColumn t hdr (cellAt cols p.1) p.1 line p.2 height)
      widths.enum (fun a _ => printColumn_isSome t hdr (cellAt cols a.1) a.1 line a.2 height))
  rw [hparts]
  rfl

theorem blockFrags_isSome (t : Tabulate) (hdr : Bool) (cols : List Column)
    (widths : List Int) (height : Int) :
    (blockFrags t hdr cols widths height).isSome := by
  unfold blockFrags
  obtain ⟨liness, hlns⟩ := Option.isSome_iff_exists.mp
    (mapMOpt_isSome (fun (i : Nat) => lineFrags t hdr cols widths (i : Int) height)
      (List.range height.toNat)
      (fun i _ => lineFrags_isSome t hdr cols widths (i : Int) height))
  rw [hlns]
  rfl

theorem headerWidths_isSome (hs : List Column)
    (hwf : ∀ h ∈ hs, h.Data.isSome) : (headerWidths hs).isSome := by
  unfold headerWidths
  refine mapMOpt_isSome _ hs (fun a ha => ?_)
  obtain ⟨d, hd⟩ := Option.isSome_iff_exists.mp (hwf a ha)
  simp [hd]

theorem widthsOf_isSome (t : Tabulate)
    (hwf : ∀ h ∈ t.Headers, h.Data.isSome) : (widthsOf t).isSome := by
  obtain ⟨hw, hhw⟩ := Option.isSome_iff_exists.mp (headerWidths_isSome t.Headers hwf)
  unfold widthsOf
  rw [hhw]
  rfl

theorem printFrags_isSome (t : Tabulate) (hwf : wfTab t = true) :
    (printFrags t).isSome := by
  unfold wfTab at hwf
  rw [Bool.and_eq_true] at hwf
  obtain ⟨hwfh, hwfr⟩ := hwf
  rw [List.all_eq_true] at hwfh hwfr
  obtain ⟨ws, hws⟩ := Option.isSome_iff_exists.mp (widthsOf_isSome t hwfh)
  obtain ⟨hh, hhh⟩ := Option.isSome_iff_exists.mp (headerHeight_isSome t.Headers hwfh)
  obtain ⟨hb, hhb⟩ := Option.isSome_iff_exists.mp
    (blockFrags_isSome t true t.Headers ws hh)
  obtain ⟨rbs, hrbs⟩ := Option.isSome_iff_exists.mp
    (mapMOpt_isSome
      (fun r => (Row.HeightOpt r).bind
        (fun h => blockFrags t false r.Columns ws (h : Int)))
      t.Rows (fun r hr => by
        obtain ⟨h0, hh0⟩ := Option.isSome_iff_exists.mp
          (rowHeight_isSome r (fun c hc => List.all_eq_true.mp (hwfr r hr) c hc))
        obtain ⟨b0, hb0⟩ := Option.isSome_iff_exists.mp
          (blockFrags_isSome t false r.Columns ws (h0 : Int))
        simp [hh0, hb0]))
  unfold printFrags
  rw [hws]
  show ((headerHeight t.Headers).bind _).isSome
  rw [hhh]
  show ((blockFrags t true t.Headers ws hh).bind _).isSome
  rw [hhb]
  show ((mapMOpt _ t.Rows).bind _).isSome
  rw [hrbs]
  rfl

end Tab

namespace Tab

/-- The ragged table of the repository's `TestMissingColumns`: headers
Year/Value; rows with 2, 1 and 3 cells (Unicode style). -/
def raggedExample : Tabulate :=
  let t0 : Tabulate := { New .Unicode with Headers := [
    { Data := some (NewLines "Year") },
    { Data := some (NewLines "Value") }] }
  { t0 with Rows := [
      { Columns := [{ Data := some (NewText "2018") }, { Data := some (NewText "100") }] },
      { Columns := [{ Data := some (NewText "2019") }] },
      { Columns := [{ Data := some (NewText "2020") }, { Data := some (NewText "100") },
                    { Data := some (NewText "200") }] } ] }

/-- C1: the computed column widths.  Conjunct 1: the width array has
one entry per column, its length being the maximum of the header count
and every row's cell count (surplus cells extend the array).  Conjunct
2: the width of column `c` is the maximum of the header cell's width at
`c` (0 when absent) and of every row's cell width at `c` (0 when the
row has no cell there) — i.e. `max(header[c], max over rows, 0)`.
Conjuncts 3 and 4: a row position beyond the row's cells is rendered
from the blank `Column{}`, whose content is the empty string.  Conjunct
5: rendering a well-formed table never fails. -/
theorem c1_column_widths :
    ∀ (t : Tabulate) (ws : List Int), widthsOf t = some ws →
      (ws.length = t.Rows.foldl (fun m r => max m r.Columns.length) t.Headers.length) ∧
      (∀ c : Nat, ws.getD c 0 =
         max (headerCellWidth t.Headers c)
             (t.Rows.foldl (fun m r => max m (rowCellWidth r c)) 0)) ∧
      (∀ (cols : List Column) (idx : Nat), cols.length ≤ idx →
         cellAt cols idx = ({} : Column)) ∧
      (∀ i : Int, Column.Content ({} : Column) i = some "") ∧
      (wfTab t = true → (printFrags t).isSome) := by
  intro t ws h
  unfold widthsOf at h
  cases hhw : headerWidths t.Headers with
  | none =>
    rw [hhw] at h
    exact absurd h (by simp)
  | some hw =>
    rw [hhw] at h
    have hws : ws = t.Rows.foldl (fun ws r => updWidths ws r.Columns) hw := by
      simpa using h.symm
    obtain ⟨hlen, hnn, hget⟩ := headerWidths_spec t.Headers hw hhw
    subst hws
    refine ⟨?_, ?_, ?_, fun i => rfl, fun hwf => printFrags_isSome t hwf⟩
    · rw [foldl_updWidths_length, hlen]
    · intro c
      rw [foldl_updWidths_getD t.Rows hw c hnn, hget c]
    · intro cols idx hle
      unfold cellAt
      rw [List.get?_eq_none.mpr hle]
      rfl

/-- Witness for C1 at the ragged example: widths `[4, 5, 3]` (the
third column created by the 3-cell row), length and per-column width
formulas checked at the unheaded column 2, and the render succeeds. -/
theorem c1_column_widths_witness :
    widthsOf raggedExample = some [4, 5, 3] ∧
    ([4, 5, 3] : List Int).length =
      raggedExample.Rows.foldl (fun m r => max m r.Columns.length)
        raggedExample.Headers.length ∧
    ([4, 5, 3] : List Int).getD 2 0 =
      max (headerCellWidth raggedExample.Headers 2)
          (raggedExample.Rows.foldl (fun m r => max m (rowCellWidth r 2)) 0) ∧
    (printFrags raggedExample).isSome := by
  refine ⟨by decide,
    (c1_column_widths raggedExample [4, 5, 3] (by decide)).1,
    (c1_column_widths raggedExample [4, 5, 3] (by decide)).2.1 2,
    (c1_column_widths raggedExample [4, 5, 3] (by decide)).2.2.2.2 (by decide)⟩

end Tab

namespace Tab

mutual

/-- Spec-side value of one cell: a nested table becomes the object
built from its rows, anything else its `String()` text. -/
def cellVal : JData → JValue
  | .plain s => .str s
  | .table _ rows => .obj (buildRows rows [])

/-- Spec-side values of a row's value cells. -/
def colVals : JRow → List JValue
  | .nil => []
  | .cons c rest => cellVal c :: colVals rest

/-- Spec-side content map: each row binds its first cell's `String()`
as object key to its remaining cells' value(s) — a single value, or an
array when there are several.  (A malformed row contributes nothing;
the marshaller never reaches this case, it errors out first.) -/
def buildRows : JRows → List (String × JValue) → List (String × JValue)
  | .nil, content => content
  | .cons row rest, content =>
    match row with
    | .cons k (.cons c1 cs) =>
      buildRows rest (insertKV content k.str (jsonRowValue (colVals (.cons c1 cs))))
    | _ => buildRows rest content

end

mutual

theorem marshalCell_error : ∀ (c : JData) (e : String),
    marshalCell c = .error e → e = jsonErrMsg
  | .plain _, e, h => by simp [marshalCell] at h
  | .table r rows, e, h => by
    unfold marshalCell at h
    cases hmr : marshalRows rows [] with
    | error e0 =>
      rw [hmr] at h
      simp [Except.map] at h
      exact h ▸ marshalRows_error rows [] e0 hmr
    | ok m =>
      rw [hmr] at h
      simp [Except.map] at h

theorem marshalCols_error : ∀ (r : JRow) (e : String),
    marshalCols r = .error e → e = jsonErrMsg
  | .nil, e, h => by simp [marshalCols] at h
  | .cons c rest, e, h => by
    unfold marshalCols at h
    cases hmc : marshalCell c with
    | error e0 =>
      rw [hmc] at h
      simp [Except.bind] at h
      exact h ▸ marshalCell_error c e0 hmc
    | ok v =>
      rw [hmc] at h
      cases hrest : marshalCols rest with
      | error e1 =>
        rw [hrest] at h
        simp [Except.bind] at h
        exact h ▸ marshalCols_error rest e1 hrest
      | ok vs =>
        rw [hrest] at h
        simp [Except.bind] at h

theorem marshalRows_error : ∀ (rows : JRows) (content : List (String × JValue))
    (e : String), marshalRows rows content = .error e → e = jsonErrMsg
  | .nil, content, e, h => by simp [marshalRows] at h
  | .cons row rest, content, e, h => by
    unfold marshalRows at h
    cases row with
    | nil =>
      simp at h
      exact h.symm
    | cons k r2 =>
      cases r2 with
      | nil =>
        simp at h
        exact h.symm
      | cons c1 cs =>
        dsimp only at h
        cases hmc : marshalCols (.cons c1 cs) with
        | error e0 =>
          rw [hmc] at h
          simp [Except.bind] at h
          exact h ▸ marshalCols_error _ e0 hmc
        | ok vals =>
          rw [hmc] at h
          simp [Except.bind] at h
          exact marshalRows_error rest _ e h

end

theorem marshalRows_short : ∀ (rows : JRows) (content : List (String × JValue)),
    hasShortRow rows = true → marshalRows rows content = .error jsonErrMsg
  | .nil, _, h => by simp [hasShortRow] at h
  | .cons row rest, content, h => by
    unfold hasShortRow at h
    rw [Bool.or_eq_true] at h
    cases row with
    | nil => rfl
    | cons k r2 =>
      cases r2 with
      | nil => rfl
      | cons c1 cs =>
        have hrest : hasShortRow rest = true := by
          rcases h with h | h
          · rw [decide_eq_true_eq] at h
            simp only [JRow.len] at h
            omega
          · exact h
        unfold marshalRows
        dsimp only
        cases hmc : marshalCols (.cons c1 cs) with
        | error e0 =>
          have he := marshalCols_error _ e0 hmc
          simp [Except.bind, he]
        | ok vals =>
          simpa [Except.bind] using marshalRows_short rest _ hrest

mutual

theorem marshalCell_wf : ∀ c : JData, JData.wfB c = true →
    marshalCell c = .ok (cellVal c)
  | .plain s, _ => rfl
  | .table r rows, h => by
    unfold JData.wfB at h
    unfold marshalCell cellVal
    rw [marshalRows_wf rows [] h]
    rfl

theorem marshalCols_wf : ∀ r : JRow, JRow.wfB r = true →
    marshalCols r = .ok (colVals r)
  | .nil, _ => rfl
  | .cons c rest, h => by
    unfold JRow.wfB at h
    rw [Bool.and_eq_true] at h
    unfold marshalCols colVals
    rw [marshalCell_wf c h.1, marshalCols_wf rest h.2]
    rfl

theorem marshalRows_wf : ∀ (rows : JRows) (content : List (String × JValue)),
    JRows.wfB rows = true → marshalRows rows content = .ok (buildRows rows content)
  | .nil, _, _ => rfl
  | .cons row rest, content, h => by
    unfold JRows.wfB at h
    rw [Bool.and_eq_true, Bool.and_eq_true] at h
    obtain ⟨⟨hlen, hrow⟩, hrest⟩ := h
    rw [decide_eq_true_eq] at hlen
    cases row with
    | nil => simp [JRow.len] at hlen
    | cons k r2 =>
      cases r2 with
      | nil => simp [JRow.len] at hlen
      | cons c1 cs =>
        have hcells : JRow.wfB (.cons c1 cs) = true := by
          unfold JRow.wfB at hrow
          rw [Bool.and_eq_true] at hrow
          exact hrow.2
        show (marshalCols (.cons c1 cs)).bind
            (fun vals => marshalRows rest (insertKV content k.str (jsonRowValue vals))) =
          .ok (buildRows rest (insertKV content k.str (jsonRowValue (colVals (.cons c1 cs)))))
        rw [marshalCols_wf _ hcells]
        exact marshalRows_wf rest _ hrest

end

end Tab

namespace Tab

/-- C6: the JSON encoding.  Conjunct 1: whenever some row has fewer
than two cells, `marshalJSON` fails with the malformed-table error, so
the whole render is aborted.  Conjunct 2: in that case `outputJSON`
writes only the failure message — since the JSON is marshalled into
memory first and emitted afterwards, no partial JSON reaches the sink.
Conjunct 3: for a well-formed table (every row, including rows of
nested tables, has at least two cells) the marshal succeeds, binding
each row's first cell `String()` as the object key to the remaining
cells' value(s), and the complete JSON plus newline is emitted. -/
theorem c6_json_marshal :
    (∀ (rows : JRows) (content : List (String × JValue)),
       hasShortRow rows = true → marshalRows rows content = .error jsonErrMsg) ∧
    (∀ rows : JRows, hasShortRow rows = true →
       outputJSON rows = "JSON marshal failed: " ++ jsonErrMsg) ∧
    (∀ rows : JRows, JRows.wfB rows = true →
       marshalRows rows [] = .ok (buildRows rows []) ∧
       outputJSON rows = jsonEncode (.obj (buildRows rows [])) ++ "\n") := by
  refine ⟨marshalRows_short, ?_, ?_⟩
  · intro rows h
    unfold outputJSON
    rw [marshalRows_short rows [] h]
    rfl
  · intro rows h
    refine ⟨marshalRows_wf rows [] h, ?_⟩
    unfold outputJSON
    rw [marshalRows_wf rows [] h]
    rfl

/-- Witness for C6: a single one-cell row is rejected with the
malformed-table error and only the failure message is emitted; the
well-formed row `Name/ACME` marshals to `{"Name":"ACME"}`. -/
theorem c6_json_marshal_witness :
    marshalRows (JRows.cons (JRow.cons (.plain "k") .nil) .nil) [] =
      .error jsonErrMsg ∧
    outputJSON (JRows.cons (JRow.cons (.plain "k") .nil) .nil) =
      "JSON marshal failed: " ++ jsonErrMsg ∧
    marshalRows (JRows.cons (JRow.cons (.plain "Name")
      (JRow.cons (.plain "ACME") .nil)) .nil) [] =
      .ok [("Name", JValue.str "ACME")] ∧
    outputJSON (JRows.cons (JRow.cons (.plain "Name")
      (JRow.cons (.plain "ACME") .nil)) .nil) =
      "\x7b\"Name\":\"ACME\"\x7d\n" :=
  ⟨c6_json_marshal.1 _ [] (by decide),
   c6_json_marshal.2.1 _ (by decide),
   (c6_json_marshal.2.2 _ (by decide)).1.trans rfl,
   (c6_json_marshal.2.2 _ (by decide)).2.trans rfl⟩

end Tab
